import Mathlib

/-!
Verification of the huma schema-generation and validation pipeline.

The repository sources under verification are:
  * `src/unnamed/part_000` — a program calling `huma.Validate` through
    `validateThing`;
  * `src/cmd/main.go` — an example service with resolvers and auto-patch;
  * `src/adapters/humamux/humamux.go` — the gorilla/mux adapter;
  * `src/unnamed/part_001` — the README plus the gin adapter (`humagin`).

The huma core (the validator `huma.Validate`, the schema registry, the
`autopatch` package) is not part of these sources — only its callers are —
so those components are modelled from the specification, as marked by the
doc comments starting with `Modelled from the spec:`.  Adapters and the
example resolvers are shallow embeddings of the Go source.

Conventions of the embedding: JSON numbers are modelled as integers (no
claim under verification involves fractional values); the regex `pattern`
and best-effort `format` checks of the validator, and the non-validating
schema metadata (`default`, `examples`, `readOnly`, `writeOnly`,
`deprecated`, `doc`), are outside the model.
-/

/-- A decoded JSON value. -/
inductive JSON where
  | null : JSON
  | bool (b : Bool) : JSON
  | num (n : Int) : JSON
  | str (s : String) : JSON
  | arr (items : List JSON) : JSON
  | obj (fields : List (String × JSON)) : JSON

mutual

/-- Structural equality of decoded JSON values (the "structural equality
after JSON normalization" the spec uses for enum membership and
`uniqueItems`). -/
def JSON.beq : JSON → JSON → Bool
  | .null, .null => true
  | .bool a, .bool b => a == b
  | .num a, .num b => a == b
  | .str a, .str b => a == b
  | .arr xs, .arr ys => JSON.beqList xs ys
  | .obj xs, .obj ys => JSON.beqFields xs ys
  | _, _ => false

/-- Structural equality of JSON arrays, element by element. -/
def JSON.beqList : List JSON → List JSON → Bool
  | [], [] => true
  | x :: xs, y :: ys => JSON.beq x y && JSON.beqList xs ys
  | _, _ => false

/-- Structural equality of JSON object field lists, in order. -/
def JSON.beqFields : List (String × JSON) → List (String × JSON) → Bool
  | [], [] => true
  | (n, x) :: xs, (m, y) :: ys => n == m && JSON.beq x y && JSON.beqFields xs ys
  | _, _ => false

end

/-- The runtime JSON types a schema node may require. -/
inductive JType where
  | string | integer | number | boolean | array | object | nullT
deriving DecidableEq

/-- The runtime JSON type of a decoded value (numbers are integers here). -/
def JSON.jtype : JSON → JType
  | .null => .nullT
  | .bool _ => .boolean
  | .num _ => .integer
  | .str _ => .string
  | .arr _ => .array
  | .obj _ => .object

/-- Whether a decoded value is JSON null. -/
def JSON.isNull : JSON → Bool
  | .null => true
  | _ => false

/-- Modelled from the spec: one Error Detail record `{message, location,
value}` of a Validation Result (§3). -/
structure ErrorDetail where
  message : String
  location : String
  value : JSON

/-- Numeric bounds of a Schema Node (§3). -/
structure NumC where
  minimum : Option Int := none
  maximum : Option Int := none
  exclusiveMinimum : Option Int := none
  exclusiveMaximum : Option Int := none
  multipleOf : Option Int := none

/-- String bounds of a Schema Node (§3). -/
structure StrC where
  minLength : Option Nat := none
  maxLength : Option Nat := none

/-- Array bounds of a Schema Node (§3). -/
structure ArrC where
  minItems : Option Nat := none
  maxItems : Option Nat := none
  uniqueItems : Bool := false

/-- Object bounds of a Schema Node (§3). -/
structure ObjC where
  minProperties : Option Nat := none
  maxProperties : Option Nat := none

/-- Modelled from the spec: a Schema Node (§3) — one JSON Schema fragment
with its type, nullability, enum, numeric/string/array/object bounds,
`items` child node, `properties` children, `required` names and
`additionalProperties` flag.  The huma schema type itself is not part of
the sources under `src/`. -/
inductive Schema where
  | mk (ty : Option JType) (nullable : Bool) (enum : Option (List JSON))
      (numC : NumC) (strC : StrC) (arrC : ArrC) (objC : ObjC)
      (items : Option Schema)
      (properties : List (String × Schema))
      (required : List String)
      (addProps : Option Bool) : Schema

/-- Extend a dot/bracket error path with an object property name. -/
def pushField (p name : String) : String :=
  if p = "" then name else p ++ "." ++ name

/-- Extend a dot/bracket error path with an array index. -/
def pushIndex (p : String) (i : Nat) : String :=
  p ++ "[" ++ toString i ++ "]"

/-- Look up a field of a decoded JSON object by name. -/
def getField? (fs : List (String × JSON)) (k : String) : Option JSON :=
  match fs with
  | [] => none
  | (n, v) :: rest => if n = k then some v else getField? rest k

/-- Whether a value matches the node's declared type, accounting for the
nullable union (a `number` node also accepts our integer-modelled nums). -/
def typeMatches (ty : Option JType) (nullable : Bool) (v : JSON) : Bool :=
  match ty with
  | none => true
  | some t => v.jtype == t || (t == JType.number && v.jtype == JType.integer)
      || (nullable && v.isNull)

/-- Whether a JSON array contains two structurally equal items. -/
def hasDup : List JSON → Bool
  | [] => false
  | x :: xs => xs.any (JSON.beq x) || hasDup xs

/-- Errors of the validator's enum step (§4.4 step 2): one error when an
enum is declared and the value is not a member. -/
def enumErrors (en : Option (List JSON)) (v : JSON) (p : String) : List ErrorDetail :=
  match en with
  | none => []
  | some vs => if vs.any (JSON.beq v) then [] else [⟨"expected value to be one of the enum", p, v⟩]

/-- Errors of the numeric-bounds checks (§4.4 step 3), each applied
independently to a numeric value. -/
def numErrors (c : NumC) (v : JSON) (p : String) : List ErrorDetail :=
  match v with
  | .num n =>
    (match c.minimum with
     | some m => if n < m then [⟨"expected number to be at least the minimum", p, v⟩] else []
     | none => []) ++
    (match c.maximum with
     | some m => if m < n then [⟨"expected number to be at most the maximum", p, v⟩] else []
     | none => []) ++
    (match c.exclusiveMinimum with
     | some m => if n ≤ m then [⟨"expected number to be greater than the exclusive minimum", p, v⟩] else []
     | none => []) ++
    (match c.exclusiveMaximum with
     | some m => if m ≤ n then [⟨"expected number to be less than the exclusive maximum", p, v⟩] else []
     | none => []) ++
    (match c.multipleOf with
     | some m => if n % m = 0 then [] else [⟨"expected number to be a multiple of the given value", p, v⟩]
     | none => [])
  | _ => []

/-- Errors of the string-length checks (§4.4 step 3). -/
def strErrors (c : StrC) (v : JSON) (p : String) : List ErrorDetail :=
  match v with
  | .str s =>
    (match c.minLength with
     | some m => if s.length < m then [⟨"expected string of at least the minimum length", p, v⟩] else []
     | none => []) ++
    (match c.maxLength with
     | some m => if m < s.length then [⟨"expected string of at most the maximum length", p, v⟩] else []
     | none => [])
  | _ => []

/-- Errors of the array-length and uniqueness checks (§4.4 step 3). -/
def arrErrors (c : ArrC) (v : JSON) (p : String) : List ErrorDetail :=
  match v with
  | .arr xs =>
    (match c.minItems with
     | some m => if xs.length < m then [⟨"expected array with at least the minimum number of items", p, v⟩] else []
     | none => []) ++
    (match c.maxItems with
     | some m => if m < xs.length then [⟨"expected array with at most the maximum number of items", p, v⟩] else []
     | none => []) ++
    (if c.uniqueItems then
      if hasDup xs then [⟨"expected array items to be unique", p, v⟩] else []
     else [])
  | _ => []

/-- Errors of the object property-count checks (§4.4 step 3). -/
def objErrors (c : ObjC) (v : JSON) (p : String) : List ErrorDetail :=
  match v with
  | .obj fields =>
    (match c.minProperties with
     | some m => if fields.length < m then [⟨"expected object with at least the minimum number of properties", p, v⟩] else []
     | none => []) ++
    (match c.maxProperties with
     | some m => if m < fields.length then [⟨"expected object with at most the maximum number of properties", p, v⟩] else []
     | none => [])
  | _ => []

/-- Errors of the required-name check (§4.4 step 4): one error per name in
`required` missing from the value, at path `prefix.name`. -/
def requiredErrors (req : List String) (fields : List (String × JSON)) (p : String) : List ErrorDetail :=
  match req with
  | [] => []
  | name :: rest =>
    (match getField? fields name with
     | some _ => []
     | none => [⟨"expected required property to be present", pushField p name, .null⟩]) ++
    requiredErrors rest fields p

/-- Errors for unexpected properties when `additionalProperties` is
explicitly false (§4.4 step 4): one error per undeclared name. -/
def addPropErrors (ap : Option Bool) (props : List (String × Schema))
    (fields : List (String × JSON)) (p : String) : List ErrorDetail :=
  match ap with
  | some false =>
    (fields.filter (fun kv => props.all (fun ps => ps.1 ≠ kv.1))).map
      (fun kv => ⟨"unexpected property", pushField p kv.1, kv.2⟩)
  | _ => []

mutual

/-- Modelled from the spec: `validate(schemaNode, value, pathPrefix)` —
the huma validator (§4.4), which is not part of the sources under `src/`.
Steps in order: type check (on mismatch, one error and the checks below
are skipped for this node); enum check; independent type-specific bound
checks; structural recursion into required names, declared properties and
array items, accumulating every error. -/
def validate : Schema → JSON → String → List ErrorDetail
  | .mk ty nl en nc sc ac oc items props req ap, v, p =>
    if typeMatches ty nl v then
      enumErrors en v p ++ numErrors nc v p ++ strErrors sc v p
        ++ arrErrors ac v p ++ objErrors oc v p
        ++ (match v, items with
            | .arr xs, some child => validateItems child xs p 0
            | _, _ => [])
        ++ (match v with
            | .obj fields =>
              requiredErrors req fields p ++ validateProps props fields p
                ++ addPropErrors ap props fields p
            | _ => [])
    else
      [⟨"expected value of a different type", p, v⟩]

/-- Recursion of the validator into array items, with bracket paths. -/
def validateItems : Schema → List JSON → String → Nat → List ErrorDetail
  | _, [], _, _ => []
  | child, x :: xs, p, i =>
    validate child x (pushIndex p i) ++ validateItems child xs p (i + 1)

/-- Recursion of the validator into the declared properties present in the
value, in schema-declared order, with dot paths. -/
def validateProps : List (String × Schema) → List (String × JSON) → String → List ErrorDetail
  | [], _, _ => []
  | (name, child) :: rest, fields, p =>
    (match getField? fields name with
     | some fv => validate child fv (pushField p name)
     | none => []) ++
    validateProps rest fields p

end

/-- Whether a value passes the enum membership check. -/
def enumOk (en : Option (List JSON)) (v : JSON) : Bool :=
  match en with
  | none => true
  | some vs => vs.any (JSON.beq v)

/-- Whether a numeric value satisfies every declared numeric bound. -/
def numOk (c : NumC) (v : JSON) : Bool :=
  match v with
  | .num n =>
    (match c.minimum with | some m => decide (m ≤ n) | none => true) &&
    (match c.maximum with | some m => decide (n ≤ m) | none => true) &&
    (match c.exclusiveMinimum with | some m => decide (m < n) | none => true) &&
    (match c.exclusiveMaximum with | some m => decide (n < m) | none => true) &&
    (match c.multipleOf with | some m => decide (n % m = 0) | none => true)
  | _ => true

/-- Whether a string value satisfies every declared length bound. -/
def strOk (c : StrC) (v : JSON) : Bool :=
  match v with
  | .str s =>
    (match c.minLength with | some m => decide (m ≤ s.length) | none => true) &&
    (match c.maxLength with | some m => decide (s.length ≤ m) | none => true)
  | _ => true

/-- Whether an array value satisfies the length and uniqueness bounds. -/
def arrOk (c : ArrC) (v : JSON) : Bool :=
  match v with
  | .arr xs =>
    (match c.minItems with | some m => decide (m ≤ xs.length) | none => true) &&
    (match c.maxItems with | some m => decide (xs.length ≤ m) | none => true) &&
    (if c.uniqueItems then !hasDup xs else true)
  | _ => true

/-- Whether an object value satisfies the property-count bounds. -/
def objOk (c : ObjC) (v : JSON) : Bool :=
  match v with
  | .obj fields =>
    (match c.minProperties with | some m => decide (m ≤ fields.length) | none => true) &&
    (match c.maxProperties with | some m => decide (fields.length ≤ m) | none => true)
  | _ => true

/-- Whether every required name is present in the object value. -/
def requiredOk (req : List String) (fields : List (String × JSON)) : Bool :=
  req.all (fun name => (getField? fields name).isSome)

/-- Whether the value has no unexpected property when
`additionalProperties` is explicitly false. -/
def addPropOk (ap : Option Bool) (props : List (String × Schema))
    (fields : List (String × JSON)) : Bool :=
  match ap with
  | some false => fields.all (fun kv => !props.all (fun ps => ps.1 ≠ kv.1))
  | _ => true

mutual

/-- Whether a value fully satisfies a Schema Node including all nested
constraints (§3): the declarative conjunction of the type check, the enum
check, every type-specific bound, the required names, the declared
properties and the array items. -/
def satisfies : Schema → JSON → Bool
  | .mk ty nl en nc sc ac oc items props req ap, v =>
    typeMatches ty nl v &&
    enumOk en v && numOk nc v && strOk sc v && arrOk ac v && objOk oc v &&
    (match v, items with
     | .arr xs, some child => itemsOk child xs
     | _, _ => true) &&
    (match v with
     | .obj fields => requiredOk req fields && propsOk props fields && addPropOk ap props fields
     | _ => true)

/-- Whether every item of an array satisfies the `items` child node. -/
def itemsOk : Schema → List JSON → Bool
  | _, [] => true
  | child, x :: xs => satisfies child x && itemsOk child xs

/-- Whether every declared property present in the value satisfies its
child node. -/
def propsOk : List (String × Schema) → List (String × JSON) → Bool
  | [], _ => true
  | (name, child) :: rest, fields =>
    (match getField? fields name with
     | some fv => satisfies child fv
     | none => true) &&
    propsOk rest fields

end

/-- One violation entry at path `p` per numeric bound the value breaks. -/
def numViolations (c : NumC) (v : JSON) (p : String) : List String :=
  match v with
  | .num n =>
    (match c.minimum with | some m => if m ≤ n then [] else [p] | none => []) ++
    (match c.maximum with | some m => if n ≤ m then [] else [p] | none => []) ++
    (match c.exclusiveMinimum with | some m => if m < n then [] else [p] | none => []) ++
    (match c.exclusiveMaximum with | some m => if n < m then [] else [p] | none => []) ++
    (match c.multipleOf with | some m => if n % m = 0 then [] else [p] | none => [])
  | _ => []

/-- One violation entry at path `p` per string bound the value breaks. -/
def strViolations (c : StrC) (v : JSON) (p : String) : List String :=
  match v with
  | .str s =>
    (match c.minLength with | some m => if m ≤ s.length then [] else [p] | none => []) ++
    (match c.maxLength with | some m => if s.length ≤ m then [] else [p] | none => [])
  | _ => []

/-- One violation entry at path `p` per array bound the value breaks. -/
def arrViolations (c : ArrC) (v : JSON) (p : String) : List String :=
  match v with
  | .arr xs =>
    (match c.minItems with | some m => if m ≤ xs.length then [] else [p] | none => []) ++
    (match c.maxItems with | some m => if xs.length ≤ m then [] else [p] | none => []) ++
    (if c.uniqueItems then if hasDup xs then [p] else [] else [])
  | _ => []

/-- One violation entry at path `p` per object bound the value breaks. -/
def objViolations (c : ObjC) (v : JSON) (p : String) : List String :=
  match v with
  | .obj fields =>
    (match c.minProperties with | some m => if m ≤ fields.length then [] else [p] | none => []) ++
    (match c.maxProperties with | some m => if fields.length ≤ m then [] else [p] | none => [])
  | _ => []

/-- One violation entry at path `p.name` per missing required name. -/
def requiredViolations (req : List String) (fields : List (String × JSON)) (p : String) : List String :=
  match req with
  | [] => []
  | name :: rest =>
    (if (getField? fields name).isSome then [] else [pushField p name]) ++
    requiredViolations rest fields p

/-- One violation entry at path `p.name` per unexpected property when
`additionalProperties` is explicitly false. -/
def addPropViolations (ap : Option Bool) (props : List (String × Schema))
    (fields : List (String × JSON)) (p : String) : List String :=
  match ap with
  | some false =>
    (fields.filter (fun kv => props.all (fun ps => ps.1 ≠ kv.1))).map
      (fun kv => pushField p kv.1)
  | _ => []

mutual

/-- The locations of the constraints a value violates, one entry per
independently-checkable violated constraint, in document order.  Defined
over the same schema walk as `satisfies`, independently of the validator
and its error records. -/
def violations : Schema → JSON → String → List String
  | .mk ty nl en nc sc ac oc items props req ap, v, p =>
    if typeMatches ty nl v then
      (if enumOk en v then [] else [p]) ++
      numViolations nc v p ++ strViolations sc v p ++
      arrViolations ac v p ++ objViolations oc v p ++
      (match v, items with
       | .arr xs, some child => violationsItems child xs p 0
       | _, _ => []) ++
      (match v with
       | .obj fields =>
         requiredViolations req fields p
           ++ violationsProps props fields p
           ++ addPropViolations ap props fields p
       | _ => [])
    else
      [p]

/-- Violation locations inside an array, index by index. -/
def violationsItems : Schema → List JSON → String → Nat → List String
  | _, [], _, _ => []
  | child, x :: xs, p, i =>
    violations child x (pushIndex p i) ++ violationsItems child xs p (i + 1)

/-- Violation locations inside the declared properties of an object. -/
def violationsProps : List (String × Schema) → List (String × JSON) → String → List String
  | [], _, _ => []
  | (name, child) :: rest, fields, p =>
    (match getField? fields name with
     | some fv => violations child fv (pushField p name)
     | none => []) ++
    violationsProps rest fields p

end

/-- Embeds `validateThing` from `src/unnamed/part_000`: run the validator
with an empty path prefix on the already-decoded value and return a
non-nil joined error exactly when the accumulated result is non-empty
(the byte-level JSON decoding and the registry lookup of the schema are
performed by the caller here). -/
def validateThing (s : Schema) (parsed : JSON) : Option (List ErrorDetail) :=
  let res := validate s parsed ""
  if res.length > 0 then some res else none

example : validate (.mk (some .object) false none {} {} {} {} none
    [("id", .mk (some .string) false none {} {} {} {} none [] [] none)]
    ["id"] none) (.obj []) "body" =
    [⟨"expected required property to be present", "body.id", .null⟩] := by
  simp [validate, validateProps, validateItems, enumErrors, numErrors, strErrors, arrErrors,
    objErrors, requiredErrors, addPropErrors, getField?, typeMatches, pushField, JSON.jtype]

example : validate (.mk (some .object) false none {} {} {} {} none
    [("id", .mk (some .string) false none {} {} {} {} none [] [] none)]
    ["id"] none) (.obj [("id", .num 123)]) "body" =
    [⟨"expected value of a different type", "body.id", .num 123⟩] := by
  simp [validate, validateProps, validateItems, enumErrors, numErrors, strErrors, arrErrors,
    objErrors, requiredErrors, addPropErrors, getField?, typeMatches, pushField, JSON.jtype]

example : (validate (.mk (some .array) false none {} {} {minItems := none, maxItems := none, uniqueItems := true} {}
    (some (.mk (some .integer) false none {} {} {} {} none [] [] none))
    [] [] none) (.arr [.num 1, .num 2, .num 2]) "body").length = 1 := by
  simp [validate, validateProps, validateItems, enumErrors, numErrors, strErrors, arrErrors,
    objErrors, requiredErrors, addPropErrors, getField?, typeMatches, pushIndex, JSON.jtype,
    hasDup, JSON.beq]

theorem enumErrors_map_loc (en : Option (List JSON)) (v : JSON) (p : String) :
    (enumErrors en v p).map (fun e => e.location) = (if enumOk en v then [] else [p]) := by
  cases en <;> simp [enumErrors, enumOk] <;> split <;> simp_all

theorem numErrors_map_loc (c : NumC) (v : JSON) (p : String) :
    (numErrors c v p).map (fun e => e.location) = numViolations c v p := by
  obtain ⟨mn, mx, emn, emx, mo⟩ := c
  cases v <;> simp only [numErrors, numViolations, List.map_nil]
  case num n =>
    simp only [List.map_append]
    congr 1
    · congr 1
      · congr 1
        · congr 1
          · cases mn <;> simp <;> split_ifs <;> (try simp) <;> omega
          · cases mx <;> simp <;> split_ifs <;> (try simp) <;> omega
        · cases emn <;> simp <;> split_ifs <;> (try simp) <;> omega
      · cases emx <;> simp <;> split_ifs <;> (try simp) <;> omega
    · cases mo <;> simp <;> split_ifs <;> (try simp) <;> omega

theorem strErrors_map_loc (c : StrC) (v : JSON) (p : String) :
    (strErrors c v p).map (fun e => e.location) = strViolations c v p := by
  obtain ⟨mn, mx⟩ := c
  cases v <;> simp [strErrors, strViolations]
  case str s =>
    cases mn <;> cases mx <;> simp <;> split_ifs <;> simp_all <;> omega

theorem arrErrors_map_loc (c : ArrC) (v : JSON) (p : String) :
    (arrErrors c v p).map (fun e => e.location) = arrViolations c v p := by
  obtain ⟨mn, mx, u⟩ := c
  cases v <;> simp [arrErrors, arrViolations]
  case arr xs =>
    cases mn <;> cases mx <;> cases u <;> simp <;> split_ifs <;> simp_all <;> omega

theorem objErrors_map_loc (c : ObjC) (v : JSON) (p : String) :
    (objErrors c v p).map (fun e => e.location) = objViolations c v p := by
  obtain ⟨mn, mx⟩ := c
  cases v <;> simp [objErrors, objViolations]
  case obj fields =>
    cases mn <;> cases mx <;> simp <;> split_ifs <;> simp_all <;> omega

theorem requiredErrors_map_loc (req : List String) (fields : List (String × JSON)) (p : String) :
    (requiredErrors req fields p).map (fun e => e.location) = requiredViolations req fields p := by
  induction req with
  | nil => simp [requiredErrors, requiredViolations]
  | cons name rest ih =>
    simp [requiredErrors, requiredViolations]
    cases h : getField? fields name <;> simp [h, Option.isSome, ih]

theorem addPropErrors_map_loc (ap : Option Bool) (props : List (String × Schema))
    (fields : List (String × JSON)) (p : String) :
    (addPropErrors ap props fields p).map (fun e => e.location) = addPropViolations ap props fields p := by
  cases ap with
  | none => simp [addPropErrors, addPropViolations]
  | some b => cases b <;> simp [addPropErrors, addPropViolations]

theorem validate_map_loc (s : Schema) (v : JSON) (p : String) :
    (validate s v p).map (fun e => e.location) = violations s v p := by
  refine validate.induct
    (fun s v p => (validate s v p).map (fun e => e.location) = violations s v p)
    (fun props fields p =>
      (validateProps props fields p).map (fun e => e.location) = violationsProps props fields p)
    (fun child xs p i =>
      (validateItems child xs p i).map (fun e => e.location) = violationsItems child xs p i)
    ?_ ?_ ?_ ?_ ?_ ?_ s v p
  · intro ty nl en nc sc ac oc items props req ap v p htm harr hobj
    show (validate (.mk ty nl en nc sc ac oc items props req ap) v p).map (fun e => e.location)
      = violations (.mk ty nl en nc sc ac oc items props req ap) v p
    cases v <;> cases items <;>
      simp_all [validate, violations, List.map_append,
        enumErrors_map_loc, numErrors_map_loc, strErrors_map_loc, arrErrors_map_loc,
        objErrors_map_loc, requiredErrors_map_loc, addPropErrors_map_loc]
  · intro ty nl en nc sc ac oc items props req ap v p htm
    show (validate (.mk ty nl en nc sc ac oc items props req ap) v p).map (fun e => e.location)
      = violations (.mk ty nl en nc sc ac oc items props req ap) v p
    cases v <;> cases items <;> simp_all [validate, violations]
  · intro fields p
    show (validateProps [] fields p).map (fun e => e.location) = violationsProps [] fields p
    simp [validateProps, violationsProps]
  · intro name child rest fields p ih1 ih2
    show (validateProps ((name, child) :: rest) fields p).map (fun e => e.location)
      = violationsProps ((name, child) :: rest) fields p
    simp only [validateProps, violationsProps, List.map_append]
    cases h : getField? fields name <;> simp [h, ih1, ih2]
  · intro child p i
    show (validateItems child [] p i).map (fun e => e.location) = violationsItems child [] p i
    simp [validateItems, violationsItems]
  · intro child x xs p i ih1 ih2
    show (validateItems child (x :: xs) p i).map (fun e => e.location)
      = violationsItems child (x :: xs) p i
    simp only [validateItems, violationsItems, List.map_append, ih1, ih2]

theorem ite_nil_iff {α : Type} (c : Prop) [Decidable c] (x : α) :
    ((if c then [] else [x]) : List α) = [] ↔ c := by
  split <;> simp_all

theorem numViolations_nil_iff (c : NumC) (v : JSON) (p : String) :
    numViolations c v p = [] ↔ numOk c v = true := by
  obtain ⟨mn, mx, emn, emx, mo⟩ := c
  cases v <;> simp [numViolations, numOk]
  case num n =>
    cases mn <;> cases mx <;> cases emn <;> cases emx <;> cases mo <;>
      simp [ite_nil_iff, List.append_eq_nil, Bool.and_eq_true, decide_eq_true_eq, and_assoc]

theorem strViolations_nil_iff (c : StrC) (v : JSON) (p : String) :
    strViolations c v p = [] ↔ strOk c v = true := by
  obtain ⟨mn, mx⟩ := c
  cases v <;> simp [strViolations, strOk]
  case str s =>
    cases mn <;> cases mx <;>
      simp [ite_nil_iff, List.append_eq_nil, Bool.and_eq_true, decide_eq_true_eq, and_assoc]

theorem arrViolations_nil_iff (c : ArrC) (v : JSON) (p : String) :
    arrViolations c v p = [] ↔ arrOk c v = true := by
  obtain ⟨mn, mx, u⟩ := c
  cases v <;> simp [arrViolations, arrOk]
  case arr xs =>
    cases mn <;> cases mx <;> cases u <;>
      simp [ite_nil_iff, List.append_eq_nil, Bool.and_eq_true, decide_eq_true_eq, and_assoc] <;>
      split_ifs <;> simp_all

theorem objViolations_nil_iff (c : ObjC) (v : JSON) (p : String) :
    objViolations c v p = [] ↔ objOk c v = true := by
  obtain ⟨mn, mx⟩ := c
  cases v <;> simp [objViolations, objOk]
  case obj fields =>
    cases mn <;> cases mx <;>
      simp [ite_nil_iff, List.append_eq_nil, Bool.and_eq_true, decide_eq_true_eq, and_assoc]

theorem requiredViolations_nil_iff (req : List String) (fields : List (String × JSON)) (p : String) :
    requiredViolations req fields p = [] ↔ requiredOk req fields = true := by
  induction req with
  | nil => simp [requiredViolations, requiredOk]
  | cons name rest ih =>
    simp only [requiredViolations, List.append_eq_nil, requiredOk, List.all_cons, Bool.and_eq_true]
    rw [ite_nil_iff]
    simp [ih, requiredOk]

theorem addPropViolations_nil_iff (ap : Option Bool) (props : List (String × Schema))
    (fields : List (String × JSON)) (p : String) :
    addPropViolations ap props fields p = [] ↔ addPropOk ap props fields = true := by
  cases ap with
  | none => simp [addPropViolations, addPropOk]
  | some b =>
    cases b with
    | true => simp [addPropViolations, addPropOk]
    | false =>
      simp [addPropViolations, addPropOk, List.map_eq_nil_iff, List.filter_eq_nil_iff,
        List.all_eq_true]

theorem violations_nil_iff (s : Schema) (v : JSON) (p : String) :
    violations s v p = [] ↔ satisfies s v = true := by
  refine validate.induct
    (fun s v p => violations s v p = [] ↔ satisfies s v = true)
    (fun props fields p => violationsProps props fields p = [] ↔ propsOk props fields = true)
    (fun child xs p i => violationsItems child xs p i = [] ↔ itemsOk child xs = true)
    ?_ ?_ ?_ ?_ ?_ ?_ s v p
  · intro ty nl en nc sc ac oc items props req ap v p htm harr hobj
    show violations (.mk ty nl en nc sc ac oc items props req ap) v p = []
      ↔ satisfies (.mk ty nl en nc sc ac oc items props req ap) v = true
    cases v <;> cases items <;>
      simp_all [violations, satisfies, List.append_eq_nil, Bool.and_eq_true, ite_nil_iff,
        numViolations_nil_iff, strViolations_nil_iff, arrViolations_nil_iff,
        objViolations_nil_iff, requiredViolations_nil_iff, addPropViolations_nil_iff,
        enumOk, and_assoc]
  · intro ty nl en nc sc ac oc items props req ap v p htm
    show violations (.mk ty nl en nc sc ac oc items props req ap) v p = []
      ↔ satisfies (.mk ty nl en nc sc ac oc items props req ap) v = true
    cases v <;> cases items <;> simp_all [violations, satisfies]
  · intro fields p
    show violationsProps [] fields p = [] ↔ propsOk [] fields = true
    simp [violationsProps, propsOk]
  · intro name child rest fields p ih1 ih2
    show violationsProps ((name, child) :: rest) fields p = []
      ↔ propsOk ((name, child) :: rest) fields = true
    simp only [violationsProps, propsOk, List.append_eq_nil, Bool.and_eq_true]
    cases h : getField? fields name <;> simp [h, ih1, ih2]
  · intro child p i
    show violationsItems child [] p i = [] ↔ itemsOk child [] = true
    simp [violationsItems, itemsOk]
  · intro child x xs p i ih1 ih2
    show violationsItems child (x :: xs) p i = [] ↔ itemsOk child (x :: xs) = true
    simp [violationsItems, itemsOk, List.append_eq_nil, Bool.and_eq_true, ih1, ih2]

theorem validate_nil_iff (s : Schema) (v : JSON) (p : String) :
    validate s v p = [] ↔ satisfies s v = true := by
  rw [← violations_nil_iff s v p, ← validate_map_loc s v p, List.map_eq_nil_iff]

/-- C1: for every schema node and decoded JSON value, `validate` returns
one error detail per independently-checkable violated constraint — its
error locations are exactly the violated constraints' dot/bracket paths,
in document order, so a value violating exactly N constraints at distinct
paths yields exactly N errors with the correct paths and no violation
suppresses any other (full accumulation, never short-circuiting). -/
theorem validate_full_accumulation (s : Schema) (v : JSON) (p : String) :
    (validate s v p).map (fun e => e.location) = violations s v p ∧
    (validate s v p).length = (violations s v p).length := by
  refine ⟨validate_map_loc s v p, ?_⟩
  rw [← validate_map_loc s v p, List.length_map]

/-- C2: the Validation Result is empty if and only if the value fully
satisfies the schema node including all nested constraints, and
`validateThing` returns a nil error exactly when the accumulated error
list is empty. -/
theorem validate_empty_iff_satisfies (s : Schema) (v : JSON) (p : String) :
    (validate s v p = [] ↔ satisfies s v = true) ∧
    (validateThing s v = none ↔ validate s v "" = []) := by
  refine ⟨validate_nil_iff s v p, ?_⟩
  cases h : validate s v "" with
  | nil => simp [validateThing, h]
  | cons a l => simp [validateThing, h]

/-- An identity of a structured type in the type graph. -/
abbrev TypeId := Nat

/-- Modelled from the spec: one node of a type graph walked by the Type
Introspector — a scalar, an array of another type, or a structure whose
fields reference other types. -/
inductive TypeDefn where
  | scalar : TypeDefn
  | array (elem : TypeId) : TypeDefn
  | struct (fields : List (String × TypeId)) : TypeDefn
deriving DecidableEq

/-- A finite, possibly cyclic type graph: the declared types by identity. -/
abbrev TypeGraph := List (TypeId × TypeDefn)

/-- Modelled from the spec: the output shape of the Schema Registry — a
built node, possibly containing `$ref`-style forward references. -/
inductive SNode where
  | scalar : SNode
  | arrayOf (item : SNode) : SNode
  | objectOf (fields : List (String × SNode)) : SNode
  | ref (t : TypeId) : SNode

/-- Look up a type definition in the graph. -/
def lookupDefn (g : TypeGraph) (t : TypeId) : Option TypeDefn :=
  match g with
  | [] => none
  | (u, d) :: rest => if u = t then some d else lookupDefn rest t

/-- The identities declared by the graph that are not yet in the
in-progress set: the work still allowed during a build. -/
def availIds (g : TypeGraph) (ip : List TypeId) : Finset TypeId :=
  (g.map Prod.fst).toFinset \ ip.toFinset

theorem availIds_cons_lt {g : TypeGraph} {ip : List TypeId} {t : TypeId}
    (hmem : t ∈ g.map Prod.fst) (hnip : t ∉ ip) :
    (availIds g (t :: ip)).card < (availIds g ip).card := by
  apply Finset.card_lt_card
  constructor
  · intro x hx
    simp only [availIds, Finset.mem_sdiff, List.mem_toFinset, List.toFinset_cons,
      Finset.mem_insert] at hx ⊢
    exact ⟨hx.1, fun h => hx.2 (Or.inr h)⟩
  · intro hsub
    have ht : t ∈ availIds g ip := by
      simp only [availIds, Finset.mem_sdiff, List.mem_toFinset]
      exact ⟨hmem, hnip⟩
    have h2 := hsub ht
    simp [availIds] at h2

theorem lookupDefn_mem {g : TypeGraph} {t : TypeId} {d : TypeDefn}
    (h : lookupDefn g t = some d) : t ∈ g.map Prod.fst := by
  induction g with
  | nil => simp [lookupDefn] at h
  | cons hd rest ih =>
    obtain ⟨u, d'⟩ := hd
    by_cases hu : u = t
    · simp [hu]
    · simp only [lookupDefn, if_neg hu] at h
      simp [ih h]

mutual

/-- Modelled from the spec: `schemaFor(type)` of the Schema Registry in
inline mode (§4.2) — if the type is already being built (cycle detected
via the in-progress set `ip`), return a forward reference without
recursing further; otherwise expand the definition, carrying the type on
the in-progress set while building its children. -/
def schemaFor (g : TypeGraph) (ip : List TypeId) (t : TypeId) : SNode :=
  if h : t ∈ ip then .ref t
  else
    match h2 : lookupDefn g t with
    | none => .ref t
    | some .scalar => .scalar
    | some (.array e) => .arrayOf (schemaFor g (t :: ip) e)
    | some (.struct fs) => .objectOf (schemaForFields g (t :: ip) fs)
termination_by ((availIds g ip).card, 0)
decreasing_by
  · exact Prod.Lex.left _ _ (availIds_cons_lt (lookupDefn_mem h2) h)
  · exact Prod.Lex.left _ _ (availIds_cons_lt (lookupDefn_mem h2) h)

/-- Builds the field nodes of a structure type, in declared order. -/
def schemaForFields (g : TypeGraph) (ip : List TypeId) (fs : List (String × TypeId)) :
    List (String × SNode) :=
  match fs with
  | [] => []
  | (n, u) :: rest => (n, schemaFor g ip u) :: schemaForFields g ip rest
termination_by ((availIds g ip).card, fs.length + 1)
decreasing_by
  · exact Prod.Lex.right _ (Nat.succ_pos _)
  · exact Prod.Lex.right _ (Nat.lt_succ_self _)

end

mutual

/-- The nesting depth of a built schema node: a finite-representation
measure. -/
def depth : SNode → Nat
  | .scalar => 1
  | .ref _ => 1
  | .arrayOf s => 1 + depth s
  | .objectOf fs => 1 + depthFields fs

/-- The greatest nesting depth among a node's fields. -/
def depthFields : List (String × SNode) → Nat
  | [] => 0
  | (_, s) :: rest => max (depth s) (depthFields rest)

end

/-- Modelled from the spec: `schemaFor` in by-reference mode (§4.2) —
every nested type reference becomes a named pointer into the registry's
flat namespace, so recursion never expands. -/
def schemaForByRef (g : TypeGraph) (t : TypeId) : SNode :=
  match lookupDefn g t with
  | none => .ref t
  | some .scalar => .scalar
  | some (.array e) => .arrayOf (.ref e)
  | some (.struct fs) => .objectOf (fs.map (fun nf => (nf.1, SNode.ref nf.2)))

theorem depthFields_refs (fs : List (String × TypeId)) :
    depthFields (fs.map (fun nf => (nf.1, SNode.ref nf.2))) ≤ 1 := by
  induction fs with
  | nil => simp [depthFields]
  | cons hd rest ih =>
    obtain ⟨n, u⟩ := hd
    simp only [List.map_cons, depthFields, depth]
    omega

theorem schemaFor_of_mem {g : TypeGraph} {ip : List TypeId} {t : TypeId} (h : t ∈ ip) :
    schemaFor g ip t = .ref t := by
  rw [schemaFor]
  simp [h]

theorem schemaFor_of_none {g : TypeGraph} {ip : List TypeId} {t : TypeId}
    (h : t ∉ ip) (h2 : lookupDefn g t = none) : schemaFor g ip t = .ref t := by
  rw [schemaFor, dif_neg h]
  split <;> simp_all

theorem schemaFor_of_scalar {g : TypeGraph} {ip : List TypeId} {t : TypeId}
    (h : t ∉ ip) (h2 : lookupDefn g t = some .scalar) : schemaFor g ip t = .scalar := by
  rw [schemaFor, dif_neg h]
  split <;> simp_all

theorem schemaFor_of_array {g : TypeGraph} {ip : List TypeId} {t : TypeId} {e : TypeId}
    (h : t ∉ ip) (h2 : lookupDefn g t = some (.array e)) :
    schemaFor g ip t = .arrayOf (schemaFor g (t :: ip) e) := by
  rw [schemaFor, dif_neg h]
  split <;> simp_all

theorem schemaFor_of_struct {g : TypeGraph} {ip : List TypeId} {t : TypeId}
    {fs : List (String × TypeId)}
    (h : t ∉ ip) (h2 : lookupDefn g t = some (.struct fs)) :
    schemaFor g ip t = .objectOf (schemaForFields g (t :: ip) fs) := by
  rw [schemaFor, dif_neg h]
  split <;> simp_all

theorem schemaFor_depth_le (g : TypeGraph) (ip : List TypeId) (t : TypeId) :
    depth (schemaFor g ip t) ≤ (availIds g ip).card + 1 := by
  refine schemaFor.induct g
    (fun ip t => depth (schemaFor g ip t) ≤ (availIds g ip).card + 1)
    (fun ip fs => depthFields (schemaForFields g ip fs) ≤ (availIds g ip).card + 1)
    ?_ ?_ ?_ ?_ ?_ ?_ ?_ ip t
  · intro ip t h
    show depth (schemaFor g ip t) ≤ (availIds g ip).card + 1
    rw [schemaFor_of_mem h]
    simp [depth]
  · intro ip t h h2
    show depth (schemaFor g ip t) ≤ (availIds g ip).card + 1
    rw [schemaFor_of_none h h2]
    simp [depth]
  · intro ip t h h2
    show depth (schemaFor g ip t) ≤ (availIds g ip).card + 1
    rw [schemaFor_of_scalar h h2]
    simp [depth]
  · intro ip t h e h2 ih
    show depth (schemaFor g ip t) ≤ (availIds g ip).card + 1
    rw [schemaFor_of_array h h2]
    have hih : depth (schemaFor g (t :: ip) e) ≤ (availIds g (t :: ip)).card + 1 := ih
    have hlt := availIds_cons_lt (lookupDefn_mem h2) h
    simp only [depth]
    omega
  · intro ip t h fs h2 ih
    show depth (schemaFor g ip t) ≤ (availIds g ip).card + 1
    rw [schemaFor_of_struct h h2]
    have hih : depthFields (schemaForFields g (t :: ip) fs) ≤ (availIds g (t :: ip)).card + 1 := ih
    have hlt := availIds_cons_lt (lookupDefn_mem h2) h
    simp only [depth]
    omega
  · intro ip
    show depthFields (schemaForFields g ip []) ≤ (availIds g ip).card + 1
    rw [schemaForFields]
    simp [depthFields]
  · intro ip n u rest ih1 ih2
    show depthFields (schemaForFields g ip ((n, u) :: rest)) ≤ (availIds g ip).card + 1
    rw [schemaForFields]
    simp only [depthFields]
    have h1 : depth (schemaFor g ip u) ≤ (availIds g ip).card + 1 := ih1
    have h2 : depthFields (schemaForFields g ip rest) ≤ (availIds g ip).card + 1 := ih2
    omega

theorem schemaForByRef_depth_le (g : TypeGraph) (t : TypeId) :
    depth (schemaForByRef g t) ≤ 2 := by
  rw [schemaForByRef]
  split
  · simp [depth]
  · simp [depth]
  · simp [depth]
  · rename_i fs _
    have h := depthFields_refs fs
    simp only [depth]
    omega

/-- C3: for every type graph, including cyclic ones, `schemaFor` is a
total function (its termination is certified by its accepted decreasing
measure on the identities not yet in progress) whose output is finite —
its nesting depth is bounded by the number of graph types not yet in
progress plus one, and by two in by-reference mode — and a type already
in the in-progress set yields a forward reference without recursing. -/
theorem schemaFor_terminates_finitely (g : TypeGraph) (ip : List TypeId) (t : TypeId) :
    (t ∈ ip → schemaFor g ip t = .ref t) ∧
    depth (schemaFor g ip t) ≤ (availIds g ip).card + 1 ∧
    depth (schemaForByRef g t) ≤ 2 :=
  ⟨fun h => schemaFor_of_mem h, schemaFor_depth_le g ip t, schemaForByRef_depth_le g t⟩

/-- Look up a built node in the registry cache. -/
def lookupNode (cache : List (TypeId × SNode)) (t : TypeId) : Option SNode :=
  match cache with
  | [] => none
  | (u, s) :: rest => if u = t then some s else lookupNode rest t

/-- Modelled from the spec: the Schema Registry's lazy build (§3, §4.2) —
entries are created on first request for a type, persist, and later
requests return the cached node. -/
def buildCached (g : TypeGraph) (cache : List (TypeId × SNode)) (t : TypeId) :
    SNode × List (TypeId × SNode) :=
  match lookupNode cache t with
  | some s => (s, cache)
  | none =>
    let s := schemaFor g [] t
    (s, (t, s) :: cache)

/-- C5: building a Schema Node twice for the same type through the
Registry yields structurally identical output — the second build returns
exactly the node the first build produced and leaves the registry
unchanged (this holds for every type graph, cyclic or not). -/
theorem buildCached_idempotent (g : TypeGraph) (cache : List (TypeId × SNode)) (t : TypeId) :
    buildCached g (buildCached g cache t).2 t = buildCached g cache t := by
  cases h : lookupNode cache t with
  | some s => simp [buildCached, h]
  | none => simp [buildCached, h, lookupNode]

theorem schemaFor_terminates_finitely_witness :
    schemaFor [(0, TypeDefn.struct [("next", 0)])] [0] 0 = SNode.ref 0 :=
  (schemaFor_terminates_finitely [(0, TypeDefn.struct [("next", 0)])] [0] 0).1 (by simp)

/-- The characters after the last separator so far: restart on a dot,
accumulate otherwise. -/
def shortNameAux (acc : List Char) : List Char → List Char
  | [] => acc.reverse
  | c :: rest => if c = '.' then shortNameAux [] rest else shortNameAux (c :: acc) rest

/-- Modelled from the spec: the naming algorithm (§4.2) — derive a short
name from the type's declared name, keeping the last dot-separated path
component only (the Go type name without its package). -/
def shortName (full : String) : String :=
  ⟨shortNameAux [] full.toList⟩

/-- Modelled from the spec: the Schema Registry's explicit name table —
registered names mapped to the registered type's identity. -/
structure Registry where
  entries : List (String × TypeId)

/-- Look up which type a name is registered to. -/
def lookupName (entries : List (String × TypeId)) (name : String) : Option TypeId :=
  match entries with
  | [] => none
  | (n, t) :: rest => if n = name then some t else lookupName rest name

/-- Modelled from the spec: `register(type, name)` (§4.2) — fails with a
collision error if a different type is already registered under that
name; a setup-time operation, so its failure is a fatal configuration
error raised before any request is served. -/
def register (r : Registry) (t : TypeId) (name : String) : Except String Registry :=
  match lookupName r.entries name with
  | some t2 => if t2 = t then .ok r else .error ("collision on " ++ name)
  | none => .ok ⟨(name, t) :: r.entries⟩

/-- Registration under the derived short name. -/
def registerType (r : Registry) (t : TypeId) (full : String) : Except String Registry :=
  register r t (shortName full)

/-- C4: registering a second, distinct type whose derived short name
equals an already registered type's short name yields the setup-time
collision error, and the name still resolves to the first type — the
first registration is neither overwritten nor merged.  The error is
raised by the setup-time `register` operation itself, not at request
time. -/
theorem register_collision_setup_error (r r2 : Registry) (t1 t2 : TypeId)
    (full1 full2 : String) (hne : t1 ≠ t2)
    (hname : shortName full1 = shortName full2)
    (hreg : registerType r t1 full1 = .ok r2) :
    registerType r2 t2 full2 = .error ("collision on " ++ shortName full2) ∧
    lookupName r2.entries (shortName full2) = some t1 := by
  rw [registerType] at hreg ⊢
  rw [← hname] at *
  cases h : lookupName r.entries (shortName full1) with
  | none =>
    rw [register, h] at hreg
    have hr2 : r2 = ⟨(shortName full1, t1) :: r.entries⟩ := by
      cases hreg
      rfl
    subst hr2
    constructor
    · rw [register]
      simp [lookupName, hne]
    · simp [lookupName]
  | some t' =>
    rw [register, h] at hreg
    by_cases ht : t' = t1
    · subst ht
      simp only [if_pos rfl] at hreg
      have hr2 : r2 = r := by
        cases hreg
        rfl
      subst hr2
      constructor
      · rw [register, h]
        simp [hne]
      · exact h
    · simp [if_neg ht] at hreg

theorem register_collision_setup_error_witness :
    registerType ⟨[("Thing", 0)]⟩ 1 "b.Thing" = .error ("collision on " ++ shortName "b.Thing") ∧
    lookupName [("Thing", (0 : TypeId))] (shortName "b.Thing") = some 0 := by
  have h := register_collision_setup_error ⟨[]⟩ ⟨[("Thing", 0)]⟩ 0 1 "a.Thing" "b.Thing"
    (by decide) (by decide) rfl
  exact h

/-- Modelled from the spec: the merge strategies of the Patch Generator
(§4.5, §6). -/
inductive MergeStrategy where
  | jsonMergePatch : MergeStrategy
  | shorthandMergePatch : MergeStrategy
  | jsonPatch : MergeStrategy
deriving DecidableEq

/-- Modelled from the spec: the Patch Generator's content-type dispatch
(§6) — the vendor shorthand content type selects shorthand merge patch,
`application/json-patch+json` selects JSON Patch, and everything else
(`application/merge-patch+json`, an absent content type, or generic JSON)
defaults to JSON Merge Patch. -/
def strategyFor (contentType : Option String) : MergeStrategy :=
  match contentType with
  | none => .jsonMergePatch
  | some ct =>
    if ct = "application/merge-patch+shorthand" then .shorthandMergePatch
    else if ct = "application/json-patch+json" then .jsonPatch
    else .jsonMergePatch

/-- C6: the merge strategy is chosen solely from the incoming
Content-Type header — `application/merge-patch+json`, an absent header
and generic JSON select JSON Merge Patch, the vendor shorthand content
type selects shorthand merge patch, and `application/json-patch+json`
selects JSON Patch. -/
theorem strategyFor_dispatch :
    strategyFor (some "application/merge-patch+json") = .jsonMergePatch ∧
    strategyFor none = .jsonMergePatch ∧
    strategyFor (some "application/json") = .jsonMergePatch ∧
    strategyFor (some "application/merge-patch+shorthand") = .shorthandMergePatch ∧
    strategyFor (some "application/json-patch+json") = .jsonPatch := by
  refine ⟨by decide, rfl, by decide, by decide, by decide⟩

/-- The current value of an object field, defaulting to null. -/
def getFieldD (fs : List (String × JSON)) (k : String) : JSON :=
  (getField? fs k).getD .null

/-- Replace a field's value in place, appending when absent. -/
def setField (fs : List (String × JSON)) (k : String) (v : JSON) : List (String × JSON) :=
  match fs with
  | [] => [(k, v)]
  | (n, w) :: rest => if n = k then (k, v) :: rest else (n, w) :: setField rest k v

/-- Remove a field by name. -/
def delField (fs : List (String × JSON)) (k : String) : List (String × JSON) :=
  match fs with
  | [] => []
  | (n, w) :: rest => if n = k then delField rest k else (n, w) :: delField rest k

mutual

/-- Modelled from the spec: RFC 7386 JSON Merge Patch as applied by the
Patch Generator (§4.5) — an object patch merges member by member into the
target (nulls delete, other members merge recursively); any non-object
patch replaces the target. -/
def mergePatch : JSON → JSON → JSON
  | target, .obj pf =>
    (match target with
     | .obj tf => .obj (mergeFields tf pf)
     | _ => .obj (mergeFields [] pf))
  | _, patch => patch

/-- Apply the members of an object patch to the target's fields. -/
def mergeFields (tf : List (String × JSON)) : List (String × JSON) → List (String × JSON)
  | [] => tf
  | (k, v) :: rest =>
    match v with
    | .null => mergeFields (delField tf k) rest
    | _ => mergeFields (setField tf k (mergePatch (getFieldD tf k) v)) rest

end

/-- Modelled from the spec: the outcome of one generated PATCH request —
either a client error, or the merged candidate forwarded to the PUT
handler. -/
inductive PatchOutcome where
  | clientError (message : String) : PatchOutcome
  | forwarded (body : JSON) : PatchOutcome

/-- Modelled from the spec: the request-time flow of a generated PATCH
(§4.5) — an unparsable patch body (modelled as a missing decoded value)
fails with a client error before the PUT handler; otherwise the patch is
applied to the current representation and the candidate is validated
against the resource's output schema node, forwarding only on an empty
Validation Result. -/
def patchPipeline (outputSchema : Schema) (current : JSON) (patchBody : Option JSON) :
    PatchOutcome :=
  match patchBody with
  | none => .clientError "unparsable patch body"
  | some p =>
    let merged := mergePatch current p
    if (validate outputSchema merged "").isEmpty then .forwarded merged
    else .clientError "merged representation failed validation"

/-- C7: applying the JSON Merge Patch `{"foo":"bar"}` to the current
representation `{"foo":"baz","other":1}` yields `{"foo":"bar","other":1}`,
which passes validation against the resource's output schema and is
forwarded; for every generated PATCH request, a forwarded candidate is
the merge result and passed validation, and an unparsable patch body
fails with a client error so the PUT handler is never invoked. -/
theorem autopatch_merge_then_validate (s : Schema) (current p : JSON) :
    mergePatch (.obj [("foo", .str "baz"), ("other", .num 1)]) (.obj [("foo", .str "bar")])
      = .obj [("foo", .str "bar"), ("other", .num 1)] ∧
    patchPipeline
      (.mk (some .object) false none {} {} {} {} none
        [("foo", .mk (some .string) false none {} {} {} {} none [] [] none),
         ("other", .mk (some .integer) false none {} {} {} {} none [] [] none)]
        [] none)
      (.obj [("foo", .str "baz"), ("other", .num 1)]) (some (.obj [("foo", .str "bar")]))
      = .forwarded (.obj [("foo", .str "bar"), ("other", .num 1)]) ∧
    patchPipeline s current none = .clientError "unparsable patch body" ∧
    (∀ m, patchPipeline s current (some p) = .forwarded m →
      m = mergePatch current p ∧ (validate s m "").isEmpty = true) := by
  refine ⟨?_, ?_, rfl, ?_⟩
  · simp [mergePatch, mergeFields, setField, delField, getFieldD, getField?]
  · simp only [patchPipeline]
    rw [if_pos]
    · simp [mergePatch, mergeFields, setField, delField, getFieldD, getField?]
    · simp [mergePatch, mergeFields, setField, delField, getFieldD, getField?,
        validate, validateProps, validateItems, enumErrors, numErrors, strErrors,
        arrErrors, objErrors, requiredErrors, addPropErrors, typeMatches, JSON.jtype,
        pushField]
  · intro m h
    simp only [patchPipeline] at h
    by_cases hv : (validate s (mergePatch current p) "").isEmpty
    · rw [if_pos hv] at h
      cases h
      exact ⟨rfl, hv⟩
    · rw [if_neg hv] at h
      simp at h

/-- The operation fields the router adapters read when registering a
route (`huma.Operation.Method` and `.Path`). -/
structure Operation where
  method : String
  path : String

/-- The inbound request fields the gorilla/mux adapter's registered
function inspects. -/
structure Request where
  method : String

/-- Embeds `gmuxContext` from `src/adapters/humamux/humamux.go`: the
neutral per-request context the adapter hands to the wrapped handler,
holding the operation and the request. -/
structure GmuxContext where
  op : Operation
  req : Request

/-- What the function registered by `gMux.Handle` does for one inbound
request that matched the route's path: call the wrapped handler with a
fresh context, or nothing at all. -/
inductive MuxDispatch where
  | callHandler (ctx : GmuxContext) : MuxDispatch
  | noAction : MuxDispatch

/-- Embeds `gMux.Handle` from `src/adapters/humamux/humamux.go` lines
85–92: the function registered under the operation's path compares the
request method with the registered method and invokes the wrapped
handler with the fresh context exactly on equality; otherwise the branch
is not taken — no handler call and no write to the response. -/
def gMuxHandle (op : Operation) (req : Request) : MuxDispatch :=
  if req.method = op.method then .callHandler ⟨op, req⟩ else .noAction

/-- C8: for every registered operation and every request matching its
path, the wrapped handler is invoked if and only if the request method
equals the operation's method; on a mismatch the adapter dispatches no
handler (and so writes nothing to the response). -/
theorem gMuxHandle_method_filter (op : Operation) (req : Request) :
    (gMuxHandle op req = .callHandler ⟨op, req⟩ ↔ req.method = op.method) ∧
    (gMuxHandle op req = .noAction ↔ req.method ≠ op.method) := by
  by_cases h : req.method = op.method <;> simp [gMuxHandle, h]

/-- Whether the second list occurs as a contiguous sublist of the first
argument list (Go `strings.Contains`). -/
def hasSubList (sub : List Char) : List Char → Bool
  | [] => sub.isEmpty
  | c :: rest => sub.isPrefixOf (c :: rest) || hasSubList sub rest

/-- Go `strings.Contains(s, sub)`. -/
def strContains (s sub : String) : Bool :=
  hasSubList sub.toList s.toList

/-- Embeds `GreetingInputBody` from `src/cmd/main.go` lines 27–30. -/
structure GreetingInputBody where
  suffix : String
  optional : Int

/-- Embeds `GreetingInputBody.Resolve` from `src/cmd/main.go` lines
32–41, with the pointer receiver made explicit state passing: the method
returns the receiver (which it never writes) together with its error
list — one `huma.ErrorDetail` at location `body.suffix` carrying the
suffix value when the suffix contains "err", nothing otherwise. -/
def GreetingInputBody.Resolve (b : GreetingInputBody) : GreetingInputBody × List ErrorDetail :=
  if strContains b.suffix "err" then
    (b, [⟨"Nested resolver works", "body.suffix", .str b.suffix⟩])
  else
    (b, [])

/-- C9: `GreetingInputBody.Resolve` returns a non-empty error list if
and only if the suffix contains the substring "err"; when non-empty the
list is exactly one `ErrorDetail` with location `body.suffix` and the
suffix as value, and the input body is never mutated. -/
theorem greetingResolve_spec (b : GreetingInputBody) :
    (b.Resolve.1 = b) ∧
    (b.Resolve.2 ≠ [] ↔ strContains b.suffix "err" = true) ∧
    (strContains b.suffix "err" = true →
      b.Resolve.2 = [⟨"Nested resolver works", "body.suffix", .str b.suffix⟩]) := by
  by_cases h : strContains b.suffix "err" <;>
    simp [GreetingInputBody.Resolve, h]

/-- Character-wise replacement: Go `strings.ReplaceAll` for a
single-character pattern and single-character replacement. -/
def replaceChar (c r : Char) : List Char → List Char
  | [] => []
  | x :: xs => (if x = c then r else x) :: replaceChar c r xs

/-- Character-wise removal: Go `strings.ReplaceAll` of a
single-character pattern by the empty string. -/
def dropChar (c : Char) : List Char → List Char
  | [] => []
  | x :: xs => if x = c then dropChar c xs else x :: dropChar c xs

/-- The opening curly brace character. -/
def braceOpen : Char := Char.ofNat 123

/-- The closing curly brace character. -/
def braceClose : Char := Char.ofNat 125

/-- Embeds the path conversion of `ginAdapter.Handle` from
`src/unnamed/part_001` (the `humagin` adapter): replace every opening
brace with a colon, then delete every closing brace, before registering
the route. -/
def ginHandlePath (p : String) : String :=
  ⟨dropChar braceClose (replaceChar braceOpen ':' p.toList)⟩

theorem replaceChar_id (c r : Char) (l : List Char) (h : ∀ x ∈ l, x ≠ c) :
    replaceChar c r l = l := by
  induction l with
  | nil => rfl
  | cons x xs ih =>
    have hx := h x (by simp)
    simp only [replaceChar, if_neg hx]
    rw [ih (fun y hy => h y (by simp [hy]))]

theorem dropChar_id (c : Char) (l : List Char) (h : ∀ x ∈ l, x ≠ c) :
    dropChar c l = l := by
  induction l with
  | nil => rfl
  | cons x xs ih =>
    have hx := h x (by simp)
    simp only [dropChar, if_neg hx]
    rw [ih (fun y hy => h y (by simp [hy]))]

/-- C10: the gin adapter registers every operation path with each
opening brace replaced by a colon and each closing brace deleted, so
`/greeting/{name}` registers as `/greeting/:name`, and a path without
braces is registered unchanged. -/
theorem ginHandlePath_spec (p : String) :
    ginHandlePath "/greeting/{name}" = "/greeting/:name" ∧
    ((∀ c ∈ p.toList, c ≠ braceOpen ∧ c ≠ braceClose) → ginHandlePath p = p) := by
  constructor
  · rfl
  · intro h
    show String.mk (dropChar braceClose (replaceChar braceOpen ':' p.toList)) = p
    rw [replaceChar_id _ _ _ (fun x hx => (h x hx).1),
      dropChar_id _ _ (fun x hx => (h x hx).2)]
    cases p
    rfl

example : validate (.mk none false (some [.str "a", .str "b", .str "c"]) {} {} {} {} none [] [] none)
    (.str "d") "body" = [⟨"expected value to be one of the enum", "body", .str "d"⟩] := by
  simp [validate, enumErrors, numErrors, strErrors, arrErrors, objErrors, typeMatches, JSON.beq]

example : validate (.mk none false (some [.str "a", .str "b", .str "c"]) {} {} {} {} none [] [] none)
    (.str "b") "body" = [] := by
  simp [validate, enumErrors, numErrors, strErrors, arrErrors, objErrors, typeMatches, JSON.beq]

example : (validate
    (.mk (some .object) false none {} {} {} {} none
      [("a", .mk (some .string) false none {} {minLength := none, maxLength := some 1} {} {} none [] [] none)]
      ["b"] none)
    (.obj [("a", .str "xyz")]) "body").map (fun e => e.location) = ["body.b", "body.a"] := by
  simp [validate, validateProps, validateItems, enumErrors, numErrors, strErrors, arrErrors,
    objErrors, requiredErrors, addPropErrors, getField?, typeMatches, pushField, JSON.jtype,
    String.length]
